import Mathlib

/-!
Verification of the incident reconciliation core of `check-status.js`
(claude-status repository).

Strings are modelled as `List Char` (JS strings, indexed by code unit).
The Slack web API, the SHA-256 digest from node crypto and `JSON.parse`
are external capabilities of the runtime, not code of this repository;
they are modelled as explicit function parameters.  Everything else is
translated from `src/check-status.js`.
-/

set_option autoImplicit false

namespace ClaudeStatus

/-- JS strings, as lists of characters. -/
abbrev Str := List Char

/-- Convert a Lean string literal to the `Str` model. -/
def str (s : String) : Str := s.toList

/-- The coarse status labels of `STATUS_EMOJI` / `extractCurrentStatus`. -/
inductive Status where
  | investigating
  | identified
  | monitoring
  | update
  | resolved
  | unknown
deriving DecidableEq, Repr

/-- Lower-cased character code, for the `/i` (case-insensitive) regex flag:
upper-case ASCII letters are mapped to their lower-case code. -/
def lcn (c : Char) : Nat :=
  if 65 ≤ c.toNat ∧ c.toNat ≤ 90 then c.toNat + 32 else c.toNat

/-- `needle` is a case-insensitive prefix of `hay`. -/
def matchesAt : Str → Str → Bool
  | [], _ => true
  | _ :: _, [] => false
  | n :: ns, h :: hs => decide (lcn n = lcn h) && matchesAt ns hs

/-- Index (from `i`) of the first case-insensitive occurrence of `needle`,
modelling `regex.exec` for a plain-text pattern with the `/i` flag. -/
def findFromCI (needle : Str) (hay : Str) (i : Nat) : Option Nat :=
  match hay with
  | [] => if matchesAt needle [] then some i else none
  | _ :: hs => if matchesAt needle hay then some i else findFromCI needle hs (i + 1)

/-- Index of the first case-insensitive occurrence of `needle` in `hay`. -/
def findCI (needle hay : Str) : Option Nat := findFromCI needle hay 0

/-- JS regex word character (`\w` = `[A-Za-z0-9_]`). -/
def isWordChar (c : Char) : Bool :=
  decide ((48 ≤ c.toNat ∧ c.toNat ≤ 57) ∨ (65 ≤ c.toNat ∧ c.toNat ≤ 90) ∨
    (97 ≤ c.toNat ∧ c.toNat ≤ 122) ∨ c.toNat = 95)

/-- `needle` (made of word characters) matches at the head of `hay` with a
word boundary after it. -/
def wordMatchHead (needle hay : Str) : Bool :=
  matchesAt needle hay &&
    (match hay.drop needle.length with
     | [] => true
     | c :: _ => !isWordChar c)

/-- Index of the first match of `/\bneedle\b/i` from position `i`;
`prevIsWord` says whether the character before position `i` is a word
character (false at the start of the string). -/
def findWordFrom (needle : Str) (hay : Str) (prevIsWord : Bool) (i : Nat) : Option Nat :=
  match hay with
  | [] => none
  | c :: hs =>
    if !prevIsWord && wordMatchHead needle hay then some i
    else findWordFrom needle hs (isWordChar c) (i + 1)

/-- Index of the first match of `/\bneedle\b/i` in `hay`. -/
def findWordCI (needle hay : Str) : Option Nat := findWordFrom needle hay false 0

/-- The text of the emphasised pattern `<strong>word</strong>`. -/
def strongPat (word : String) : Str := str "<strong>" ++ str word ++ str "</strong>"

/-- The `statusPatterns` array of `extractCurrentStatus` (lines 77-87), in
source order: emphasis-markup patterns first, then plain word-boundary
patterns, each ordered resolved, monitoring, identified, investigating. -/
def statusPatterns : List ((Str → Option Nat) × Status) :=
  [ (findCI (strongPat "Resolved"), Status.resolved),
    (findCI (strongPat "Monitoring"), Status.monitoring),
    (findCI (strongPat "Identified"), Status.identified),
    (findCI (strongPat "Investigating"), Status.investigating),
    (fun d => findWordCI (str "Resolved") d, Status.resolved),
    (fun d => findWordCI (str "Monitoring") d, Status.monitoring),
    (fun d => findWordCI (str "Identified") d, Status.identified),
    (fun d => findWordCI (str "Investigating") d, Status.investigating) ]

/-- One step of the `for` loop of `extractCurrentStatus` (lines 91-96): keep
the candidate whose index is strictly smaller than the best position so far
(`none` plays the role of the initial `Infinity`). -/
def bestOf (fm : Option Nat × Status) (q : Nat × Status) : Option Nat × Status :=
  match fm.1 with
  | none => (some q.1, q.2)
  | some j => if q.1 < j then (some q.1, q.2) else fm

/-- `extractCurrentStatus` (lines 76-99): scan the patterns in order, keep
the first match with a strictly smaller index, default `unknown`. -/
def extractCurrentStatus (d : Str) : Status :=
  (statusPatterns.foldl
    (fun fm p =>
      match p.1 d with
      | some i => bestOf fm (i, p.2)
      | none => fm)
    (none, Status.unknown)).2

/-- All pattern matches in `d`, in pattern-priority order, as
(position, status) pairs. -/
def patternMatches (d : Str) : List (Nat × Status) :=
  statusPatterns.filterMap (fun p => (p.1 d).map (fun i => (i, p.2)))

/-- Minimal position of a list of matches. -/
def minPos? : List (Nat × Status) → Option Nat
  | [] => none
  | q :: l =>
    some (match minPos? l with
          | none => q.1
          | some m => min q.1 m)

/-- Modelled from the spec: the status whose keyword occurs at the earliest
textual position wins, ties broken by the fixed pattern priority order
(first pattern in `statusPatterns` order among those at the minimal
position); `unknown` when no pattern matches. -/
def extractCurrentStatusSpec (d : Str) : Status :=
  match minPos? (patternMatches d) with
  | none => Status.unknown
  | some m =>
    match (patternMatches d).find? (fun q => q.1 == m) with
    | some q => q.2
    | none => Status.unknown

/-- The leftmost element of the list achieving the minimal position. -/
def selectFirstMin : List (Nat × Status) → Option (Nat × Status)
  | [] => none
  | q :: l =>
    match selectFirstMin l with
    | none => some q
    | some r => if r.1 < q.1 then some r else some q

/-- Fold `bestOf` over the remaining matches, starting from an accumulator. -/
def combineMin (acc : Option Nat × Status) : Option (Nat × Status) → Option Nat × Status
  | none => acc
  | some q => bestOf acc q

lemma foldl_patterns (d : Str) (ps : List ((Str → Option Nat) × Status))
    (acc : Option Nat × Status) :
    ps.foldl (fun fm p =>
      match p.1 d with
      | some i => bestOf fm (i, p.2)
      | none => fm) acc
      = (ps.filterMap (fun p => (p.1 d).map (fun i => (i, p.2)))).foldl bestOf acc := by
  induction ps generalizing acc with
  | nil => rfl
  | cons p ps ih =>
    simp only [List.foldl_cons, List.filterMap_cons]
    cases h : p.1 d with
    | none => simp only [h, ih, Option.map_none']
    | some i => simp only [h, ih, Option.map_some', List.foldl_cons]

@[simp] lemma bestOf_none (s : Status) (q : Nat × Status) :
    bestOf (none, s) q = (some q.1, q.2) := rfl

@[simp] lemma bestOf_some (j : Nat) (s : Status) (q : Nat × Status) :
    bestOf (some j, s) q = if q.1 < j then (some q.1, q.2) else (some j, s) := rfl

lemma foldl_bestOf_select (l : List (Nat × Status)) (acc : Option Nat × Status) :
    l.foldl bestOf acc = combineMin acc (selectFirstMin l) := by
  induction l generalizing acc with
  | nil => rfl
  | cons q l ih =>
    simp only [List.foldl_cons, ih, selectFirstMin]
    split
    · rename_i hnone
      rw [hnone]
      rfl
    · rename_i r hsel
      rw [hsel]
      obtain ⟨p, s⟩ := acc
      cases p with
      | none =>
        split_ifs with h1 <;>
          · simp only [combineMin, bestOf_none, bestOf_some]
            split_ifs
            all_goals rfl
      | some j =>
        split_ifs with h1 <;>
          · simp only [combineMin, bestOf_some]
            split_ifs <;>
              first
              | rfl
              | omega
              | (simp only [combineMin, bestOf_some]
                 split_ifs <;> first | rfl | omega)

lemma minPos_eq_select (l : List (Nat × Status)) :
    minPos? l = (selectFirstMin l).map Prod.fst := by
  induction l with
  | nil => rfl
  | cons q l ih =>
    simp only [minPos?, selectFirstMin, ih]
    cases hsel : selectFirstMin l with
    | none => rfl
    | some r =>
      simp only [Option.map_some']
      split_ifs with h <;> simp only [Option.map_some', Option.some.injEq] <;> omega

lemma find_of_select (l : List (Nat × Status)) (r : Nat × Status)
    (h : selectFirstMin l = some r) :
    l.find? (fun q => q.1 == r.1) = some r := by
  induction l generalizing r with
  | nil => simp [selectFirstMin] at h
  | cons q l ih =>
    simp only [selectFirstMin] at h
    split at h
    · cases h
      simp [List.find?]
    · rename_i r' hsel
      split at h
      · rename_i hlt
        cases h
        have hne : (q.1 == r.1) = false := by
          simp only [beq_eq_false_iff_ne, ne_eq]
          omega
        simp only [List.find?, hne]
        exact ih r hsel
      · cases h
        simp [List.find?]

/-- C4: for every narrative string, `extractCurrentStatus` returns the status
whose keyword occurs at the earliest textual position, with ties broken by
the fixed pattern priority order (resolved > monitoring > identified >
investigating, emphasis-markup patterns before the plain-keyword fallback),
and returns `unknown` when no keyword occurs; in particular a narrative in
which `<strong>Investigating</strong>` precedes `<strong>Resolved</strong>`
yields `investigating`, not `resolved`. -/
theorem extractCurrentStatus_earliest_position_wins :
    (∀ d : Str, extractCurrentStatus d = extractCurrentStatusSpec d) ∧
    extractCurrentStatus (str "Latest update: <strong>Investigating</strong> - elevated error rates. Earlier: <strong>Resolved</strong> - this incident has been resolved.")
      = Status.investigating := by
  constructor
  · intro d
    have h1 : extractCurrentStatus d
        = ((patternMatches d).foldl bestOf (none, Status.unknown)).2 := by
      unfold extractCurrentStatus patternMatches
      rw [foldl_patterns]
    rw [h1, foldl_bestOf_select]
    cases hsel : selectFirstMin (patternMatches d) with
    | none =>
      have h2 : minPos? (patternMatches d) = none := by
        rw [minPos_eq_select, hsel]
        rfl
      unfold extractCurrentStatusSpec
      rw [h2]
      rfl
    | some r =>
      have h2 : minPos? (patternMatches d) = some r.1 := by
        rw [minPos_eq_select, hsel]
        rfl
      have h3 := find_of_select (patternMatches d) r hsel
      unfold extractCurrentStatusSpec
      rw [h2]
      show r.2 = match (patternMatches d).find? (fun q => q.1 == r.1) with
        | some q => q.2
        | none => Status.unknown
      rw [h3]
  · decide

/-! ## State store and reconciler -/

/-- `truncateText` (lines 191-194). -/
def truncateText (text : Str) (maxLength : Nat) : Str :=
  if text.length ≤ maxLength then text
  else text.take (maxLength - 20) ++ str "\n\n_...and more_"

/-- The `mrkdwn` text of the section block of `formatIncidentBlocks`
(line 217), as a function of the cleaned description. -/
def incidentSectionText (cleanDescription : Str) : Str :=
  truncateText cleanDescription 2900

/-- `hashDescription` (lines 146-148): hex sha-256 digest truncated to 16
characters.  The digest itself comes from node crypto, an external
capability, passed in as `sha`. -/
def hashDescription (sha : Str → Str) (description : Str) : Str :=
  (sha description).take 16

/-- One parsed feed item (output of `parseRssFeed`, lines 54-60). -/
structure Incident where
  guid : Str
  title : Str
  description : Str
  pubDate : Str
  link : Str
deriving DecidableEq, Repr

/-- One persisted record of the state store (the object literals stored at
`state[incidentId]`, lines 321-329 / 341-349 / 366-371). -/
structure Entry where
  title : Str
  description_hash : Str
  status : Status
  first_seen : Str
  last_updated : Str
  slack_message_ts : Option Str
  link : Str
deriving DecidableEq, Repr

/-- The state store: a JS object keyed by incident guid, modelled as an
insertion-ordered association list with unique keys. -/
abbrev StateStore := List (Str × Entry)

/-- Property read `state[incidentId]` on the state object. -/
def lookupEntry : StateStore → Str → Option Entry
  | [], _ => none
  | (k, v) :: rest, g => if k = g then some v else lookupEntry rest g

/-- Property write `state[incidentId] = entry`: overwrite in place when the
key exists (JS objects keep the original insertion position), append
otherwise. -/
def setEntry : StateStore → Str → Entry → StateStore
  | [], g, e => [(g, e)]
  | (k, v) :: rest, g, e =>
    if k = g then (k, e) :: rest else (k, v) :: setEntry rest g e

/-- The chat capability used by the reconciler (spec section 4.5):
`send` is `postNewIncident` (returns the new message ts, or null when the
adapter is unconfigured) and `edit` is `updateIncidentMessage` (takes the
stored ts, returns a ts).  Both are fallible: a rejected API call throws. -/
structure Notifier where
  send : Incident → Status → Except Str (Option Str)
  edit : Str → Incident → Status → Except Str Str

/-- `postNewIncident` / `updateIncidentMessage` when Slack is not
configured (lines 237-240 and 264-267): log-only, `send` returns null and
`edit` returns its input ts unchanged. -/
def dryNotifier : Notifier where
  send := fun _ _ => Except.ok none
  edit := fun ts _ _ => Except.ok ts

/-- Record of one outbound API call made during a run (which function was
invoked, for which incident, and with which message ts). -/
inductive Call where
  | send (guid : Str)
  | edit (guid : Str) (ts : Str)
deriving DecidableEq, Repr

/-- The incident guid an outbound call was made for. -/
def Call.guid : Call → Str
  | .send g => g
  | .edit g _ => g

/-- The mutable data of one reconciliation pass: the in-memory state object
plus the `newCount` / `updateCount` counters (lines 306-307), instrumented
with the list of outbound calls made so far. -/
structure RunAcc where
  state : StateStore
  newCount : Nat
  updateCount : Nat
  calls : List Call
deriving Repr

/-- One iteration of the `for (const item of feedItems)` loop of
`processIncidents` (lines 309-379).  An `Except.error` is a thrown
notifier error, which aborts the whole loop.  The guard on
`existing.slack_message_ts` is the JS truthiness test
`if (existing.slack_message_ts)`, false for both null and the empty
string. -/
def stepIncident (sha : Str → Str) (notif : Notifier) (isFirstRun : Bool)
    (now : Str) (acc : RunAcc) (item : Incident) : Except Str RunAcc :=
  let incidentId := item.guid
  let descriptionHash := hashDescription sha item.description
  let currentStatus := extractCurrentStatus item.description
  match lookupEntry acc.state incidentId with
  | none =>
    if isFirstRun && decide (0 < acc.newCount) then
      Except.ok { acc with
        state := setEntry acc.state incidentId
          { title := item.title
            description_hash := descriptionHash
            status := currentStatus
            first_seen := item.pubDate
            last_updated := now
            slack_message_ts := none
            link := item.link } }
    else
      match notif.send item currentStatus with
      | Except.error e => Except.error e
      | Except.ok messageTs =>
        Except.ok
          { state := setEntry acc.state incidentId
              { title := item.title
                description_hash := descriptionHash
                status := currentStatus
                first_seen := item.pubDate
                last_updated := now
                slack_message_ts := messageTs
                link := item.link }
            newCount := acc.newCount + 1
            updateCount := acc.updateCount
            calls := acc.calls ++ [Call.send incidentId] }
  | some existing =>
    if existing.description_hash ≠ descriptionHash then
      match existing.slack_message_ts with
      | some (c :: cs) =>
        match notif.edit (c :: cs) item currentStatus with
        | Except.error e => Except.error e
        | Except.ok _newTs =>
          Except.ok
            { state := setEntry acc.state incidentId
                { existing with
                  description_hash := descriptionHash
                  status := currentStatus
                  last_updated := now }
              newCount := acc.newCount
              updateCount := acc.updateCount + 1
              calls := acc.calls ++ [Call.edit incidentId (c :: cs)] }
      | _ =>
        Except.ok { acc with
          state := setEntry acc.state incidentId
            { existing with
              description_hash := descriptionHash
              status := currentStatus
              last_updated := now }
          updateCount := acc.updateCount + 1 }
    else
      Except.ok acc

/-- The whole `for` loop of `processIncidents`, from a given accumulator. -/
def runIncidents (sha : Str → Str) (notif : Notifier) (isFirstRun : Bool)
    (now : Str) : RunAcc → List Incident → Except Str RunAcc
  | acc, [] => Except.ok acc
  | acc, item :: rest =>
    match stepIncident sha notif isFirstRun now acc item with
    | Except.error e => Except.error e
    | Except.ok acc' => runIncidents sha notif isFirstRun now acc' rest

/-- The initial accumulator of a run over a loaded state. -/
def initAcc (state0 : StateStore) : RunAcc :=
  { state := state0, newCount := 0, updateCount := 0, calls := [] }

/-- `processIncidents` (lines 291-385), after the feed has been fetched and
parsed: compute `isFirstRun` from the loaded state (line 299) and run the
reconciliation loop. -/
def processIncidents (sha : Str → Str) (notif : Notifier)
    (feed : List Incident) (state0 : StateStore) (now : Str) :
    Except Str RunAcc :=
  runIncidents sha notif state0.isEmpty now (initAcc state0) feed

/-! ## Persistence: loadState / saveState / main -/

/-- The newline character of the pretty-printed JSON output. -/
def nlc : Char := Char.ofNat 10

/-- Lower-case hex digit. -/
def hexDigit (n : Nat) : Char :=
  Char.ofNat (if n < 10 then 48 + n else 87 + n)

/-- `JSON.stringify` escaping of one character inside a string literal. -/
def escapeChar (c : Char) : Str :=
  if c = Char.ofNat 34 then [Char.ofNat 92, Char.ofNat 34]
  else if c = Char.ofNat 92 then [Char.ofNat 92, Char.ofNat 92]
  else if c = Char.ofNat 8 then [Char.ofNat 92, 'b']
  else if c = Char.ofNat 9 then [Char.ofNat 92, 't']
  else if c = nlc then [Char.ofNat 92, 'n']
  else if c = Char.ofNat 12 then [Char.ofNat 92, 'f']
  else if c = Char.ofNat 13 then [Char.ofNat 92, 'r']
  else if c.toNat < 32 then
    [Char.ofNat 92, 'u', '0', '0', hexDigit (c.toNat / 16), hexDigit (c.toNat % 16)]
  else [c]

/-- A JSON string literal. -/
def jsonQuote (s : Str) : Str :=
  Char.ofNat 34 :: ((s.map escapeChar).flatten ++ [Char.ofNat 34])

/-- The stored string value of a status label. -/
def statusStr : Status → Str
  | .investigating => str "investigating"
  | .identified => str "identified"
  | .monitoring => str "monitoring"
  | .update => str "update"
  | .resolved => str "resolved"
  | .unknown => str "unknown"

/-- Join pieces with a separator. -/
def joinSep (sep : Str) : List Str → Str
  | [] => []
  | [x] => x
  | x :: y :: rest => x ++ sep ++ joinSep sep (y :: rest)

/-- One `"name": value` line of an entry, at depth 2 (4-space indent). -/
def fieldLine (name : String) (value : Str) : Str :=
  str "    " ++ jsonQuote (str name) ++ str ": " ++ value

/-- The pretty-printed JSON object of one entry, as `JSON.stringify` with
indent 2 renders it at depth 1 (fields in the insertion order of the
object literals of `processIncidents`). -/
def serializeEntry (e : Entry) : Str :=
  str "\x7b" ++ [nlc] ++
    joinSep (str "," ++ [nlc])
      [ fieldLine "title" (jsonQuote e.title),
        fieldLine "description_hash" (jsonQuote e.description_hash),
        fieldLine "status" (jsonQuote (statusStr e.status)),
        fieldLine "first_seen" (jsonQuote e.first_seen),
        fieldLine "last_updated" (jsonQuote e.last_updated),
        fieldLine "slack_message_ts"
          (match e.slack_message_ts with
           | none => str "null"
           | some t => jsonQuote t),
        fieldLine "link" (jsonQuote e.link) ] ++
    [nlc] ++ str "  \x7d"

/-- The file content written by `saveState` (lines 165-170):
`JSON.stringify(state, null, 2)`. -/
def serializeState : StateStore → Str
  | [] => str "\x7b\x7d"
  | kv :: rest =>
    str "\x7b" ++ [nlc] ++
      joinSep (str "," ++ [nlc])
        ((kv :: rest).map
          (fun p => str "  " ++ jsonQuote p.1 ++ str ": " ++ serializeEntry p.2)) ++
      [nlc] ++ str "\x7d"

/-- `loadState` (lines 153-160).  `readResult` is the outcome of `readFile`
(`none` when the file is absent and the read throws); `parse` is the
`JSON.parse` capability (`none` when parsing throws).  Either failure is
caught and yields the empty state object. -/
def loadState (readResult : Option Str) (parse : Str → Option StateStore) : StateStore :=
  match readResult with
  | none => []
  | some content =>
    match parse content with
    | none => []
    | some st => st

/-- The persistence shape of one `main` invocation (lines 390-408 and
381-382): load the state, run the reconciliation pass, and write the state
file once at the very end; a thrown notifier error propagates out of
`processIncidents`, so the process exits before `saveState` runs and the
file keeps its previous content.  Returns the file content after the run
(`none` = still absent). -/
def runAndPersist (sha : Str → Str) (notif : Notifier) (feed : List Incident)
    (readResult : Option Str) (parse : Str → Option StateStore) (now : Str) :
    Option Str :=
  let state := loadState readResult parse
  match processIncidents sha notif feed state now with
  | Except.ok acc => some (serializeState acc.state)
  | Except.error _ => readResult

/-! ## Entry shapes used by the reconciler -/

/-- The full record stored for a newly seen incident (lines 321-329 and
341-349), with the given outbound message ts. -/
def newEntry (sha : Str → Str) (now : Str) (item : Incident)
    (ts : Option Str) : Entry :=
  { title := item.title
    description_hash := hashDescription sha item.description
    status := extractCurrentStatus item.description
    first_seen := item.pubDate
    last_updated := now
    slack_message_ts := ts
    link := item.link }

/-- The record stored for a changed incident (lines 366-371): spread of the
existing entry with fingerprint, status and last-updated replaced. -/
def updatedEntry (sha : Str → Str) (now : Str) (item : Incident)
    (existing : Entry) : Entry :=
  { existing with
    description_hash := hashDescription sha item.description
    status := extractCurrentStatus item.description
    last_updated := now }

/-! ## Basic lemmas about the state object -/

lemma lookup_set_self (s : StateStore) (k : Str) (e : Entry) :
    lookupEntry (setEntry s k e) k = some e := by
  induction s with
  | nil => simp [setEntry, lookupEntry]
  | cons kv rest ih =>
    obtain ⟨k', v⟩ := kv
    by_cases h : k' = k
    · simp [setEntry, lookupEntry, h]
    · simp [setEntry, lookupEntry, h, ih]

lemma lookup_set_ne (s : StateStore) (k g : Str) (e : Entry) (h : g ≠ k) :
    lookupEntry (setEntry s k e) g = lookupEntry s g := by
  induction s with
  | nil => simp [setEntry, lookupEntry, Ne.symm h]
  | cons kv rest ih =>
    obtain ⟨k', v⟩ := kv
    by_cases h' : k' = k
    · subst h'
      simp [setEntry, lookupEntry, Ne.symm h]
    · by_cases h'' : k' = g
      · simp [setEntry, lookupEntry, h', h'', h]
      · simp [setEntry, lookupEntry, h', h'', ih]

/-! ## Equation lemmas for the reconciler branches -/

lemma step_noop (sha : Str → Str) (notif : Notifier) (fr : Bool) (now : Str)
    (acc : RunAcc) (item : Incident) (existing : Entry)
    (h1 : lookupEntry acc.state item.guid = some existing)
    (h2 : existing.description_hash = hashDescription sha item.description) :
    stepIncident sha notif fr now acc item = Except.ok acc := by
  simp [stepIncident, h1, h2]

lemma step_suppress (sha : Str → Str) (notif : Notifier) (now : Str)
    (acc : RunAcc) (item : Incident)
    (h1 : lookupEntry acc.state item.guid = none)
    (h2 : 0 < acc.newCount) :
    stepIncident sha notif true now acc item
      = Except.ok { acc with
          state := setEntry acc.state item.guid (newEntry sha now item none) } := by
  simp [stepIncident, h1, h2, newEntry]

lemma step_fresh (sha : Str → Str) (notif : Notifier) (fr : Bool) (now : Str)
    (acc : RunAcc) (item : Incident) (ts : Option Str)
    (h1 : lookupEntry acc.state item.guid = none)
    (h2 : (fr && decide (0 < acc.newCount)) = false)
    (h3 : notif.send item (extractCurrentStatus item.description) = Except.ok ts) :
    stepIncident sha notif fr now acc item
      = Except.ok
          { state := setEntry acc.state item.guid (newEntry sha now item ts)
            newCount := acc.newCount + 1
            updateCount := acc.updateCount
            calls := acc.calls ++ [Call.send item.guid] } := by
  simp [stepIncident, h1, h2, h3, newEntry]

lemma step_fresh_fail (sha : Str → Str) (notif : Notifier) (fr : Bool) (now : Str)
    (acc : RunAcc) (item : Incident) (e : Str)
    (h1 : lookupEntry acc.state item.guid = none)
    (h2 : (fr && decide (0 < acc.newCount)) = false)
    (h3 : notif.send item (extractCurrentStatus item.description) = Except.error e) :
    stepIncident sha notif fr now acc item = Except.error e := by
  simp [stepIncident, h1, h2, h3]

lemma step_edit (sha : Str → Str) (notif : Notifier) (fr : Bool) (now : Str)
    (acc : RunAcc) (item : Incident) (existing : Entry) (c : Char) (cs : Str)
    (newTs : Str)
    (h1 : lookupEntry acc.state item.guid = some existing)
    (h2 : existing.description_hash ≠ hashDescription sha item.description)
    (h3 : existing.slack_message_ts = some (c :: cs))
    (h4 : notif.edit (c :: cs) item (extractCurrentStatus item.description)
            = Except.ok newTs) :
    stepIncident sha notif fr now acc item
      = Except.ok
          { state := setEntry acc.state item.guid (updatedEntry sha now item existing)
            newCount := acc.newCount
            updateCount := acc.updateCount + 1
            calls := acc.calls ++ [Call.edit item.guid (c :: cs)] } := by
  simp [stepIncident, h1, h2, h3, h4, updatedEntry]

lemma step_edit_fail (sha : Str → Str) (notif : Notifier) (fr : Bool) (now : Str)
    (acc : RunAcc) (item : Incident) (existing : Entry) (c : Char) (cs : Str)
    (e : Str)
    (h1 : lookupEntry acc.state item.guid = some existing)
    (h2 : existing.description_hash ≠ hashDescription sha item.description)
    (h3 : existing.slack_message_ts = some (c :: cs))
    (h4 : notif.edit (c :: cs) item (extractCurrentStatus item.description)
            = Except.error e) :
    stepIncident sha notif fr now acc item = Except.error e := by
  simp [stepIncident, h1, h2, h3, h4]

lemma step_silent (sha : Str → Str) (notif : Notifier) (fr : Bool) (now : Str)
    (acc : RunAcc) (item : Incident) (existing : Entry)
    (h1 : lookupEntry acc.state item.guid = some existing)
    (h2 : existing.description_hash ≠ hashDescription sha item.description)
    (h3 : existing.slack_message_ts = none ∨ existing.slack_message_ts = some []) :
    stepIncident sha notif fr now acc item
      = Except.ok { acc with
          state := setEntry acc.state item.guid (updatedEntry sha now item existing)
          updateCount := acc.updateCount + 1 } := by
  rcases h3 with h3 | h3 <;> simp [stepIncident, h1, h2, h3, updatedEntry]

/-! ## Sample data used by the concrete witnesses -/

/-- A stand-in for the sha-256 capability in concrete witnesses. -/
def sampleSha : Str → Str := fun s => s

/-- A sample feed item. -/
def itemY : Incident :=
  { guid := str "Y"
    title := str "Title Y"
    description := str "new words about Y"
    pubDate := str "Mon, 05 Jan 2026 01:00:00 +0000"
    link := str "https://status.claude.com/incidents/y" }

/-- A sample stored entry for `itemY` whose fingerprint is stale and whose
message ts is null (a bootstrap-suppressed entry). -/
def entryY : Entry :=
  { title := str "Title Y"
    description_hash := str "stale"
    status := Status.investigating
    first_seen := str "Mon, 05 Jan 2026 00:00:00 +0000"
    last_updated := str "before"
    slack_message_ts := none
    link := str "https://status.claude.com/incidents/y" }

/-- A sample stored entry for `itemY` whose fingerprint is stale and whose
message ts is the string T1. -/
def entryYposted : Entry :=
  { entryY with slack_message_ts := some (str "T1") }

/-- A sample accumulator holding only the suppressed entry for Y. -/
def accY : RunAcc :=
  { state := [(str "Y", entryY)], newCount := 0, updateCount := 0, calls := [] }

/-- A sample accumulator holding only the posted entry for Y. -/
def accYposted : RunAcc :=
  { state := [(str "Y", entryYposted)], newCount := 0, updateCount := 0, calls := [] }

/-- A notifier whose edit succeeds and returns the ts T2 (different from the
stored T1), and whose send succeeds with ts S1. -/
def notifT2 : Notifier where
  send := fun _ _ => Except.ok (some (str "S1"))
  edit := fun _ _ _ => Except.ok (str "T2")

/-! ## Claim theorems -/

/-- C9: the rendered message body placed in the Slack section block is
capped: `truncateText t 2900` returns `t` unchanged when `t` has at most
2900 characters, and otherwise the first 2880 characters of `t` followed by
a newline-newline-and-more marker; in all cases the result has at most 2900
characters. -/
theorem truncateText_cap (t : Str) :
    (t.length ≤ 2900 → truncateText t 2900 = t) ∧
    (2900 < t.length →
      truncateText t 2900 = t.take 2880 ++ str "\n\n_...and more_") ∧
    (truncateText t 2900).length ≤ 2900 ∧
    incidentSectionText t = truncateText t 2900 := by
  refine ⟨?_, ?_, ?_, rfl⟩
  · intro h
    simp [truncateText, h]
  · intro h
    unfold truncateText
    rw [if_neg (by omega)]
  · unfold truncateText
    split_ifs with h
    · exact h
    · rw [List.length_append, List.length_take]
      have hs : (str "\n\n_...and more_").length = 15 := rfl
      omega

theorem truncateText_cap_witness :
    (str "all good").length ≤ 2900 ∧ truncateText (str "all good") 2900 = str "all good" :=
  ⟨by decide, (truncateText_cap (str "all good")).1 (by decide)⟩

/-- C8: `loadState` returns the empty mapping, raising no error, both when
the state file is absent (the read throws) and when its contents fail to
parse as JSON (`JSON.parse` throws); in every other case it returns the
mapping decoded from the file. -/
theorem loadState_absent_or_corrupt (parse : Str → Option StateStore) (c : Str)
    (st : StateStore) :
    loadState none parse = [] ∧
    (parse c = none → loadState (some c) parse = []) ∧
    (parse c = some st → loadState (some c) parse = st) := by
  refine ⟨rfl, ?_, ?_⟩ <;> intro h <;> simp [loadState, h]

theorem loadState_absent_or_corrupt_witness :
    (fun _ : Str => (none : Option StateStore)) (str "oops") = none ∧
    loadState (some (str "oops")) (fun _ => none) = [] :=
  ⟨rfl, (loadState_absent_or_corrupt (fun _ => none) (str "oops") []).2.1 rfl⟩

/-- C3: a reconciliation step on an entry whose outbound message ts is null
and whose fingerprint changed makes no notifier call (for any notifier —
the call log is unchanged), updates the stored fingerprint, status and
last-updated timestamp, and leaves the entry's title, first-seen timestamp,
outbound message ts and link unchanged. -/
theorem suppressed_update_silent (sha : Str → Str) (notif : Notifier)
    (fr : Bool) (now : Str) (acc : RunAcc) (item : Incident) (existing : Entry)
    (h1 : lookupEntry acc.state item.guid = some existing)
    (h2 : existing.slack_message_ts = none)
    (h3 : existing.description_hash ≠ hashDescription sha item.description) :
    ∃ acc' : RunAcc,
      stepIncident sha notif fr now acc item = Except.ok acc' ∧
      acc'.calls = acc.calls ∧
      ∃ e', lookupEntry acc'.state item.guid = some e' ∧
        e'.description_hash = hashDescription sha item.description ∧
        e'.status = extractCurrentStatus item.description ∧
        e'.last_updated = now ∧
        e'.title = existing.title ∧
        e'.first_seen = existing.first_seen ∧
        e'.slack_message_ts = existing.slack_message_ts ∧
        e'.link = existing.link := by
  refine ⟨_, step_silent sha notif fr now acc item existing h1 h3 (Or.inl h2), rfl, ?_⟩
  exact ⟨updatedEntry sha now item existing,
    lookup_set_self acc.state item.guid _, rfl, rfl, rfl, rfl, rfl, rfl, rfl⟩

theorem suppressed_update_silent_witness :
    lookupEntry accY.state itemY.guid = some entryY ∧
    entryY.slack_message_ts = none ∧
    entryY.description_hash ≠ hashDescription sampleSha itemY.description ∧
    (∃ acc' : RunAcc,
      stepIncident sampleSha dryNotifier false (str "now") accY itemY = Except.ok acc' ∧
      acc'.calls = accY.calls ∧
      ∃ e', lookupEntry acc'.state itemY.guid = some e' ∧
        e'.description_hash = hashDescription sampleSha itemY.description ∧
        e'.status = extractCurrentStatus itemY.description ∧
        e'.last_updated = str "now" ∧
        e'.title = entryY.title ∧
        e'.first_seen = entryY.first_seen ∧
        e'.slack_message_ts = entryY.slack_message_ts ∧
        e'.link = entryY.link) :=
  ⟨rfl, rfl, by decide,
    suppressed_update_silent sampleSha dryNotifier false (str "now") accY itemY entryY
      rfl rfl (by decide)⟩

/-- C2 (amended): for every reconciliation step where an entry exists for
the item, the stored fingerprint differs from the newly computed one and
the stored outbound message ts is a non-empty string: `Notifier.edit` is
called exactly once with that stored ts, `Notifier.send` is not called, and
the updated entry RETAINS the previously stored ts — the messageId returned
by `Notifier.edit` is discarded by the caller (lines 358-371). -/
theorem edit_in_place (sha : Str → Str) (notif : Notifier) (fr : Bool)
    (now : Str) (acc : RunAcc) (item : Incident) (existing : Entry)
    (c : Char) (cs : Str) (newTs : Str)
    (h1 : lookupEntry acc.state item.guid = some existing)
    (h2 : existing.slack_message_ts = some (c :: cs))
    (h3 : existing.description_hash ≠ hashDescription sha item.description)
    (h4 : notif.edit (c :: cs) item (extractCurrentStatus item.description)
            = Except.ok newTs) :
    ∃ acc' : RunAcc,
      stepIncident sha notif fr now acc item = Except.ok acc' ∧
      acc'.calls = acc.calls ++ [Call.edit item.guid (c :: cs)] ∧
      ∃ e', lookupEntry acc'.state item.guid = some e' ∧
        e'.slack_message_ts = some (c :: cs) ∧
        e'.description_hash = hashDescription sha item.description ∧
        e'.status = extractCurrentStatus item.description ∧
        e'.last_updated = now := by
  refine ⟨_, step_edit sha notif fr now acc item existing c cs newTs h1 h3 h2 h4,
    rfl, updatedEntry sha now item existing,
    lookup_set_self acc.state item.guid _, ?_, rfl, rfl, rfl⟩
  show existing.slack_message_ts = some (c :: cs)
  exact h2

theorem edit_in_place_witness :
    lookupEntry accYposted.state itemY.guid = some entryYposted ∧
    entryYposted.slack_message_ts = some ('T' :: str "1") ∧
    entryYposted.description_hash ≠ hashDescription sampleSha itemY.description ∧
    notifT2.edit ('T' :: str "1") itemY (extractCurrentStatus itemY.description)
      = Except.ok (str "T2") ∧
    (∃ acc' : RunAcc,
      stepIncident sampleSha notifT2 false (str "now") accYposted itemY
        = Except.ok acc' ∧
      acc'.calls = accYposted.calls ++ [Call.edit itemY.guid ('T' :: str "1")] ∧
      ∃ e', lookupEntry acc'.state itemY.guid = some e' ∧
        e'.slack_message_ts = some ('T' :: str "1") ∧
        e'.description_hash = hashDescription sampleSha itemY.description ∧
        e'.status = extractCurrentStatus itemY.description ∧
        e'.last_updated = str "now") :=
  ⟨rfl, rfl, by decide, rfl,
    edit_in_place sampleSha notifT2 false (str "now") accYposted itemY entryYposted
      'T' (str "1") (str "T2") rfl rfl (by decide) rfl⟩

/-- C2 (counterexample to the claim as stated): with stored ts T1 and an
edit capability that returns the different ts T2, the reconciler stores T1,
not the messageId T2 returned by `Notifier.edit` — the claim that the
returned messageId is stored is false. -/
theorem edit_result_not_stored :
    notifT2.edit (str "T1") itemY (extractCurrentStatus itemY.description)
      = Except.ok (str "T2") ∧
    (stepIncident sampleSha notifT2 false (str "now") accYposted itemY).map
        (fun acc' => (lookupEntry acc'.state (str "Y")).map Entry.slack_message_ts)
      = Except.ok (some (some (str "T1"))) ∧
    str "T1" ≠ str "T2" := by
  refine ⟨rfl, ?_, by decide⟩
  rfl

/-- The store invariant relating a store to its successor. -/
def StorePreserves (s s' : StateStore) : Prop :=
  (∀ k, (lookupEntry s k).isSome → (lookupEntry s' k).isSome) ∧
  (∀ k e ts, lookupEntry s k = some e → e.slack_message_ts = some ts →
    ∃ e', lookupEntry s' k = some e' ∧ e'.slack_message_ts = some ts)

lemma preserves_refl (s : StateStore) : StorePreserves s s :=
  ⟨fun _ h => h, fun _ e _ h1 h2 => ⟨e, h1, h2⟩⟩

lemma preserves_of_fresh (s : StateStore) (g : Str) (eNew : Entry)
    (hl : lookupEntry s g = none) : StorePreserves s (setEntry s g eNew) := by
  constructor
  · intro k hk
    by_cases h : k = g
    · subst h
      rw [lookup_set_self]
      rfl
    · rwa [lookup_set_ne s g k eNew h]
  · intro k e ts hke hts
    by_cases h : k = g
    · subst h
      rw [hl] at hke
      cases hke
    · exact ⟨e, by rwa [lookup_set_ne s g k eNew h], hts⟩

lemma preserves_of_update (s : StateStore) (g : Str) (existing eNew : Entry)
    (hl : lookupEntry s g = some existing)
    (hts : eNew.slack_message_ts = existing.slack_message_ts) :
    StorePreserves s (setEntry s g eNew) := by
  constructor
  · intro k hk
    by_cases h : k = g
    · subst h
      rw [lookup_set_self]
      rfl
    · rwa [lookup_set_ne s g k eNew h]
  · intro k e ts hke hts'
    by_cases h : k = g
    · subst h
      rw [hl] at hke
      cases hke
      exact ⟨eNew, lookup_set_self _ _ _, by rw [hts, hts']⟩
    · exact ⟨e, by rwa [lookup_set_ne s g k eNew h], hts'⟩

lemma step_preserves (sha : Str → Str) (notif : Notifier)
    (fr : Bool) (now : Str) (acc : RunAcc) (item : Incident) (acc' : RunAcc)
    (h : stepIncident sha notif fr now acc item = Except.ok acc') :
    StorePreserves acc.state acc'.state := by
  cases hl : lookupEntry acc.state item.guid with
  | none =>
    cases hc : (fr && decide (0 < acc.newCount)) with
    | true =>
      rw [Bool.and_eq_true] at hc
      obtain ⟨hfr, hcnt⟩ := hc
      subst hfr
      rw [step_suppress sha notif now acc item hl (of_decide_eq_true hcnt)] at h
      cases Except.ok.inj h
      exact preserves_of_fresh acc.state item.guid _ hl
    | false =>
      cases hs : notif.send item (extractCurrentStatus item.description) with
      | error e =>
        rw [step_fresh_fail sha notif fr now acc item e hl hc hs] at h
        cases h
      | ok ts =>
        rw [step_fresh sha notif fr now acc item ts hl hc hs] at h
        cases Except.ok.inj h
        exact preserves_of_fresh acc.state item.guid _ hl
  | some existing =>
    by_cases hne : existing.description_hash = hashDescription sha item.description
    · rw [step_noop sha notif fr now acc item existing hl hne] at h
      cases Except.ok.inj h
      exact preserves_refl acc.state
    · cases hts : existing.slack_message_ts with
      | none =>
        rw [step_silent sha notif fr now acc item existing hl hne (Or.inl hts)] at h
        cases Except.ok.inj h
        exact preserves_of_update acc.state item.guid existing _ hl rfl
      | some ts =>
        cases ts with
        | nil =>
          rw [step_silent sha notif fr now acc item existing hl hne (Or.inr hts)] at h
          cases Except.ok.inj h
          exact preserves_of_update acc.state item.guid existing _ hl rfl
        | cons c cs =>
          cases he : notif.edit (c :: cs) item (extractCurrentStatus item.description) with
          | error e =>
            rw [step_edit_fail sha notif fr now acc item existing c cs e hl hne hts he] at h
            cases h
          | ok newTs =>
            rw [step_edit sha notif fr now acc item existing c cs newTs hl hne hts he] at h
            cases Except.ok.inj h
            exact preserves_of_update acc.state item.guid existing _ hl rfl

/-- C5: every reconciliation step preserves the state-store invariant: no
identifier present in the store is removed by the step, and an entry whose
outbound message ts is non-null never has it cleared or changed. -/
theorem step_preserves_store_invariant (sha : Str → Str) (notif : Notifier)
    (fr : Bool) (now : Str) (acc : RunAcc) (item : Incident) (acc' : RunAcc)
    (h : stepIncident sha notif fr now acc item = Except.ok acc') :
    (∀ k, (lookupEntry acc.state k).isSome → (lookupEntry acc'.state k).isSome) ∧
    (∀ k e ts, lookupEntry acc.state k = some e → e.slack_message_ts = some ts →
      ∃ e', lookupEntry acc'.state k = some e' ∧ e'.slack_message_ts = some ts) :=
  step_preserves sha notif fr now acc item acc' h

theorem step_preserves_store_invariant_witness :
    stepIncident sampleSha notifT2 false (str "now") accYposted itemY
      = Except.ok
          { state := [(str "Y", updatedEntry sampleSha (str "now") itemY entryYposted)]
            newCount := 0
            updateCount := 1
            calls := [Call.edit (str "Y") (str "T1")] } ∧
    ((∀ k, (lookupEntry accYposted.state k).isSome →
        (lookupEntry [(str "Y", updatedEntry sampleSha (str "now") itemY entryYposted)] k).isSome) ∧
     (∀ k e ts, lookupEntry accYposted.state k = some e → e.slack_message_ts = some ts →
        ∃ e', lookupEntry [(str "Y", updatedEntry sampleSha (str "now") itemY entryYposted)] k = some e' ∧
          e'.slack_message_ts = some ts)) :=
  ⟨rfl,
    step_preserves_store_invariant sampleSha notifT2 false (str "now") accYposted itemY
      { state := [(str "Y", updatedEntry sampleSha (str "now") itemY entryYposted)]
        newCount := 0
        updateCount := 1
        calls := [Call.edit (str "Y") (str "T1")] } rfl⟩

/-! ## Idempotence on an unchanged feed (C6) -/

lemma run_noop (sha : Str → Str) (notif : Notifier) (fr : Bool) (now : Str)
    (feed : List Incident) (acc : RunAcc)
    (hunch : ∀ item ∈ feed, ∃ e, lookupEntry acc.state item.guid = some e ∧
      e.description_hash = hashDescription sha item.description) :
    runIncidents sha notif fr now acc feed = Except.ok acc := by
  induction feed with
  | nil => rfl
  | cons item rest ih =>
    obtain ⟨e, he, hh⟩ := hunch item (List.mem_cons_self item rest)
    simp only [runIncidents]
    rw [step_noop sha notif fr now acc item e he hh]
    exact ih (fun i hi => hunch i (List.mem_cons_of_mem _ hi))

/-- C6: if every feed item's identifier is already in the loaded state with
a fingerprint equal to that item's narrative fingerprint, the
reconciliation pass makes no notifier calls, leaves the state object
untouched, and — when the loaded file content was itself produced by
`saveState` of that state — the file written at the end is byte-for-byte
identical to the one loaded. -/
theorem unchanged_feed_idempotent (sha : Str → Str) (notif : Notifier)
    (feed : List Incident) (state0 : StateStore) (now : Str) (content : Str)
    (parse : Str → Option StateStore)
    (hparse : parse content = some state0)
    (hsaved : content = serializeState state0)
    (hunch : ∀ item ∈ feed, ∃ e, lookupEntry state0 item.guid = some e ∧
      e.description_hash = hashDescription sha item.description) :
    processIncidents sha notif feed state0 now = Except.ok (initAcc state0) ∧
    (initAcc state0).calls = [] ∧
    runAndPersist sha notif feed (some content) parse now = some content := by
  have hrun : processIncidents sha notif feed state0 now = Except.ok (initAcc state0) :=
    run_noop sha notif state0.isEmpty now feed (initAcc state0) hunch
  refine ⟨hrun, rfl, ?_⟩
  have hload : loadState (some content) parse = state0 := by
    simp [loadState, hparse]
  simp only [runAndPersist, hload, hrun]
  rw [hsaved]
  rfl

/-- A second sample item whose narrative still matches the stored
fingerprint (for the idempotence witness). -/
def itemZ : Incident :=
  { guid := str "Z"
    title := str "Title Z"
    description := str "zdesc"
    pubDate := str "Sun, 04 Jan 2026 00:00:00 +0000"
    link := str "https://status.claude.com/incidents/z" }

/-- The stored entry for `itemZ`, fingerprint up to date. -/
def entryZ : Entry :=
  { title := str "Title Z"
    description_hash := str "zdesc"
    status := Status.resolved
    first_seen := str "Sun, 04 Jan 2026 00:00:00 +0000"
    last_updated := str "before"
    slack_message_ts := some (str "T9")
    link := str "https://status.claude.com/incidents/z" }

/-- The loaded state of the idempotence witness. -/
def stateZ : StateStore := [(str "Z", entryZ)]

theorem unchanged_feed_idempotent_witness :
    (fun _ : Str => some stateZ) (serializeState stateZ) = some stateZ ∧
    serializeState stateZ = serializeState stateZ ∧
    (∀ item ∈ [itemZ], ∃ e, lookupEntry stateZ item.guid = some e ∧
      e.description_hash = hashDescription sampleSha item.description) ∧
    (processIncidents sampleSha notifT2 [itemZ] stateZ (str "now")
        = Except.ok (initAcc stateZ) ∧
      (initAcc stateZ).calls = [] ∧
      runAndPersist sampleSha notifT2 [itemZ] (some (serializeState stateZ))
        (fun _ => some stateZ) (str "now") = some (serializeState stateZ)) :=
  ⟨rfl, rfl,
    fun item hi => by
      rw [List.mem_singleton] at hi
      subst hi
      exact ⟨entryZ, rfl, by decide⟩,
    unchanged_feed_idempotent sampleSha notifT2 [itemZ] stateZ (str "now")
      (serializeState stateZ) (fun _ => some stateZ) rfl rfl
      (fun item hi => by
        rw [List.mem_singleton] at hi
        subst hi
        exact ⟨entryZ, rfl, by decide⟩)⟩

/-! ## Mid-run notifier failure (C7) -/

lemma run_append (sha : Str → Str) (notif : Notifier) (fr : Bool) (now : Str)
    (l1 l2 : List Incident) (acc : RunAcc) :
    runIncidents sha notif fr now acc (l1 ++ l2)
      = match runIncidents sha notif fr now acc l1 with
        | Except.error e => Except.error e
        | Except.ok acc' => runIncidents sha notif fr now acc' l2 := by
  induction l1 generalizing acc with
  | nil => rfl
  | cons item rest ih =>
    simp only [List.cons_append, runIncidents]
    cases stepIncident sha notif fr now acc item with
    | error e => rfl
    | ok acc' => exact ih acc'

/-- A notifier all of whose calls are rejected by the API. -/
def failNotifier : Notifier where
  send := fun _ _ => Except.error (str "send failed")
  edit := fun _ _ _ => Except.error (str "edit failed")

/-- C7: if a notifier send or edit call fails at any point of the
reconciliation pass (after the loop has successfully processed a prefix of
the feed), the whole run aborts with that error, and the persisted state
file is unchanged: the state is written only once, after every feed item
has been processed, so none of the run's in-memory changes survive. -/
theorem notify_failure_discards_run (sha : Str → Str) (notif : Notifier)
    (feed1 : List Incident) (item : Incident) (feed2 : List Incident)
    (readResult : Option Str) (parse : Str → Option StateStore) (now : Str)
    (e : Str) (acc1 : RunAcc)
    (hpre : runIncidents sha notif (loadState readResult parse).isEmpty now
        (initAcc (loadState readResult parse)) feed1 = Except.ok acc1)
    (hfail : stepIncident sha notif (loadState readResult parse).isEmpty now acc1 item
        = Except.error e) :
    processIncidents sha notif (feed1 ++ item :: feed2) (loadState readResult parse) now
      = Except.error e ∧
    runAndPersist sha notif (feed1 ++ item :: feed2) readResult parse now
      = readResult := by
  have hp : processIncidents sha notif (feed1 ++ item :: feed2)
      (loadState readResult parse) now = Except.error e := by
    unfold processIncidents
    rw [run_append, hpre]
    simp only [runIncidents, hfail]
  exact ⟨hp, by simp only [runAndPersist, hp]⟩

theorem notify_failure_discards_run_witness :
    runIncidents sampleSha failNotifier
        (loadState (some (serializeState accYposted.state)) (fun _ => some accYposted.state)).isEmpty
        (str "now")
        (initAcc (loadState (some (serializeState accYposted.state)) (fun _ => some accYposted.state)))
        [] = Except.ok (initAcc accYposted.state) ∧
    stepIncident sampleSha failNotifier
        (loadState (some (serializeState accYposted.state)) (fun _ => some accYposted.state)).isEmpty
        (str "now") (initAcc accYposted.state) itemY = Except.error (str "edit failed") ∧
    (processIncidents sampleSha failNotifier [itemY] accYposted.state (str "now")
        = Except.error (str "edit failed") ∧
      runAndPersist sampleSha failNotifier [itemY]
        (some (serializeState accYposted.state)) (fun _ => some accYposted.state) (str "now")
        = some (serializeState accYposted.state)) :=
  ⟨rfl, rfl,
    notify_failure_discards_run sampleSha failNotifier [] itemY []
      (some (serializeState accYposted.state)) (fun _ => some accYposted.state)
      (str "now") (str "edit failed") (initAcc accYposted.state) rfl rfl⟩

/-! ## First-run suppression (C1) -/

lemma run_firstrun_suppresses (sha : Str → Str) (notif : Notifier) (now : Str)
    (rest : List Incident) (acc : RunAcc)
    (hn : 0 < acc.newCount)
    (hfresh : ∀ item ∈ rest, lookupEntry acc.state item.guid = none)
    (hnd : (rest.map Incident.guid).Nodup) :
    ∃ acc', runIncidents sha notif true now acc rest = Except.ok acc' ∧
      acc'.calls = acc.calls ∧
      acc'.newCount = acc.newCount ∧
      (∀ k, (lookupEntry acc.state k).isSome →
        lookupEntry acc'.state k = lookupEntry acc.state k) ∧
      (∀ item ∈ rest, lookupEntry acc'.state item.guid = some (newEntry sha now item none)) := by
  induction rest generalizing acc with
  | nil =>
    exact ⟨acc, rfl, rfl, rfl, fun _ _ => rfl, fun i hi => absurd hi (List.not_mem_nil i)⟩
  | cons item rest ih =>
    have hl : lookupEntry acc.state item.guid = none :=
      hfresh item (List.mem_cons_self _ _)
    have hstep := step_suppress sha notif now acc item hl hn
    rw [List.map_cons, List.nodup_cons] at hnd
    obtain ⟨hg, hnd'⟩ := hnd
    have hfresh1 : ∀ i ∈ rest,
        lookupEntry (setEntry acc.state item.guid (newEntry sha now item none)) i.guid
          = none := by
      intro i hi
      have hne : i.guid ≠ item.guid := by
        intro hEq
        exact hg (hEq ▸ List.mem_map_of_mem Incident.guid hi)
      rw [lookup_set_ne _ _ _ _ hne]
      exact hfresh i (List.mem_cons_of_mem _ hi)
    obtain ⟨acc', hrun, hcalls, hcount, hpres, hmem⟩ :=
      ih { acc with state := setEntry acc.state item.guid (newEntry sha now item none) }
        hn hfresh1 hnd'
    refine ⟨acc', ?_, ?_, ?_, ?_, ?_⟩
    · simp only [runIncidents]
      rw [hstep]
      exact hrun
    · exact hcalls
    · exact hcount
    · intro k hk
      have hkne : k ≠ item.guid := by
        intro hEq
        rw [hEq, hl] at hk
        simp at hk
      have h1 : lookupEntry (setEntry acc.state item.guid (newEntry sha now item none)) k
          = lookupEntry acc.state k := lookup_set_ne _ _ _ _ hkne
      have h2 := hpres k (by
        show (lookupEntry (setEntry acc.state item.guid (newEntry sha now item none)) k).isSome
        rw [h1]
        exact hk)
      exact h2.trans h1
    · intro i hi
      rcases List.mem_cons.mp hi with hEq | hi'
      · subst hEq
        have h1 : lookupEntry (setEntry acc.state i.guid (newEntry sha now i none)) i.guid
            = some (newEntry sha now i none) := lookup_set_self _ _ _
        have h2 := hpres i.guid (by
          show (lookupEntry (setEntry acc.state i.guid (newEntry sha now i none)) i.guid).isSome
          rw [h1]
          rfl)
        rw [h2]
        exact h1
      · exact hmem i hi'

/-- C1: on a run that starts with an empty state store, given a feed of
never-before-seen incidents (pairwise distinct identifiers, newest first),
`Notifier.send` is called exactly once, for the first (newest) item; every
item's identifier appears in the final state, and every item after the
first is recorded with a null outbound message ts while its title,
fingerprint, status, first-seen timestamp and link are stored in full (the
entry is exactly `newEntry sha now item none`). -/
theorem first_run_posts_only_newest (sha : Str → Str) (notif : Notifier)
    (newest : Incident) (rest : List Incident) (now : Str) (ts0 : Option Str)
    (hsend : notif.send newest (extractCurrentStatus newest.description)
        = Except.ok ts0)
    (hnd : ((newest :: rest).map Incident.guid).Nodup) :
    ∃ acc', processIncidents sha notif (newest :: rest) [] now = Except.ok acc' ∧
      acc'.calls = [Call.send newest.guid] ∧
      (∀ item ∈ newest :: rest, (lookupEntry acc'.state item.guid).isSome) ∧
      lookupEntry acc'.state newest.guid = some (newEntry sha now newest ts0) ∧
      (∀ item ∈ rest, lookupEntry acc'.state item.guid = some (newEntry sha now item none)) := by
  rw [List.map_cons, List.nodup_cons] at hnd
  obtain ⟨hg, hnd'⟩ := hnd
  have hl : lookupEntry (initAcc ([] : StateStore)).state newest.guid = none := rfl
  have hc : (List.isEmpty ([] : StateStore)
      && decide (0 < (initAcc ([] : StateStore)).newCount)) = false := rfl
  have hstep := step_fresh sha notif (List.isEmpty ([] : StateStore)) now
    (initAcc []) newest ts0 hl hc hsend
  have hfresh : ∀ i ∈ rest,
      lookupEntry (setEntry (initAcc ([] : StateStore)).state newest.guid
        (newEntry sha now newest ts0)) i.guid = none := by
    intro i hi
    have hne : newest.guid ≠ i.guid := by
      intro hEq
      exact hg (hEq ▸ List.mem_map_of_mem Incident.guid hi)
    simp [initAcc, setEntry, lookupEntry, hne]
  obtain ⟨acc', hrun, hcalls, hcount, hpres, hmem⟩ :=
    run_firstrun_suppresses sha notif now rest
      { state := setEntry (initAcc ([] : StateStore)).state newest.guid
          (newEntry sha now newest ts0)
        newCount := (initAcc ([] : StateStore)).newCount + 1
        updateCount := (initAcc ([] : StateStore)).updateCount
        calls := (initAcc ([] : StateStore)).calls ++ [Call.send newest.guid] }
      (Nat.succ_pos _) hfresh hnd'
  have hnewest : lookupEntry acc'.state newest.guid = some (newEntry sha now newest ts0) := by
    have h1 : lookupEntry (setEntry (initAcc ([] : StateStore)).state newest.guid
        (newEntry sha now newest ts0)) newest.guid = some (newEntry sha now newest ts0) :=
      lookup_set_self _ _ _
    have h2 := hpres newest.guid (by
      show (lookupEntry (setEntry (initAcc ([] : StateStore)).state newest.guid
        (newEntry sha now newest ts0)) newest.guid).isSome
      rw [h1]
      rfl)
    exact h2.trans h1
  refine ⟨acc', ?_, ?_, ?_, hnewest, hmem⟩
  · simp only [processIncidents, runIncidents]
    rw [hstep]
    exact hrun
  · exact hcalls
  · intro item hi
    rcases List.mem_cons.mp hi with hEq | hi'
    · subst hEq
      rw [hnewest]
      rfl
    · rw [hmem item hi']
      rfl

theorem first_run_posts_only_newest_witness :
    notifT2.send itemY (extractCurrentStatus itemY.description)
      = Except.ok (some (str "S1")) ∧
    (([itemY, itemZ] : List Incident).map Incident.guid).Nodup ∧
    (∃ acc', processIncidents sampleSha notifT2 [itemY, itemZ] [] (str "now")
        = Except.ok acc' ∧
      acc'.calls = [Call.send itemY.guid] ∧
      (∀ item ∈ [itemY, itemZ], (lookupEntry acc'.state item.guid).isSome) ∧
      lookupEntry acc'.state itemY.guid
        = some (newEntry sampleSha (str "now") itemY (some (str "S1"))) ∧
      (∀ item ∈ [itemZ], lookupEntry acc'.state item.guid
        = some (newEntry sampleSha (str "now") item none))) :=
  ⟨rfl, by decide,
    first_run_posts_only_newest sampleSha notifT2 itemY [itemZ] (str "now")
      (some (str "S1")) rfl (by decide)⟩

/-! ## Permanent suppression of dry-run incidents (C10) -/

/-- The identifier `k` is either absent from the store or stored with a
null outbound message ts. -/
def NullAt (s : StateStore) (k : Str) : Prop :=
  lookupEntry s k = none ∨ ∃ e, lookupEntry s k = some e ∧ e.slack_message_ts = none

/-- The identifier `k` is stored with a null outbound message ts. -/
def SuppressedAt (s : StateStore) (k : Str) : Prop :=
  ∃ e, lookupEntry s k = some e ∧ e.slack_message_ts = none

lemma NullAt_set_other (s : StateStore) (g k : Str) (e : Entry) (hk : k ≠ g)
    (hinv : NullAt s k) : NullAt (setEntry s g e) k := by
  rcases hinv with h0 | ⟨e0, he0, hts0⟩
  · exact Or.inl (by rwa [lookup_set_ne _ _ _ _ hk])
  · exact Or.inr ⟨e0, by rwa [lookup_set_ne _ _ _ _ hk], hts0⟩

lemma NullAt_set_null (s : StateStore) (g k : Str) (e : Entry)
    (hts : e.slack_message_ts = none) (hinv : NullAt s k) :
    NullAt (setEntry s g e) k := by
  by_cases hk : k = g
  · subst hk
    exact Or.inr ⟨e, lookup_set_self _ _ _, hts⟩
  · exact NullAt_set_other s g k e hk hinv

lemma NullAt_set_preserve (s : StateStore) (g k : Str) (existing eNew : Entry)
    (hl : lookupEntry s g = some existing)
    (hts : eNew.slack_message_ts = existing.slack_message_ts)
    (hinv : NullAt s k) : NullAt (setEntry s g eNew) k := by
  by_cases hk : k = g
  · subst hk
    rcases hinv with h0 | ⟨e0, he0, hts0⟩
    · rw [hl] at h0
      cases h0
    · rw [hl] at he0
      cases he0
      exact Or.inr ⟨eNew, lookup_set_self _ _ _, by rw [hts, hts0]⟩
  · exact NullAt_set_other s g k eNew hk hinv

lemma step_dry_null (sha : Str → Str) (fr : Bool) (now : Str) (acc : RunAcc)
    (item : Incident) (acc' : RunAcc) (k : Str)
    (h : stepIncident sha dryNotifier fr now acc item = Except.ok acc')
    (hinv : NullAt acc.state k) : NullAt acc'.state k := by
  cases hl : lookupEntry acc.state item.guid with
  | none =>
    cases hc : (fr && decide (0 < acc.newCount)) with
    | true =>
      rw [Bool.and_eq_true] at hc
      obtain ⟨hfr, hcnt⟩ := hc
      subst hfr
      rw [step_suppress sha dryNotifier now acc item hl (of_decide_eq_true hcnt)] at h
      cases Except.ok.inj h
      exact NullAt_set_null _ _ _ _ rfl hinv
    | false =>
      have hs : dryNotifier.send item (extractCurrentStatus item.description)
          = Except.ok none := rfl
      rw [step_fresh sha dryNotifier fr now acc item none hl hc hs] at h
      cases Except.ok.inj h
      exact NullAt_set_null _ _ _ _ rfl hinv
  | some existing =>
    by_cases hne : existing.description_hash = hashDescription sha item.description
    · rw [step_noop sha dryNotifier fr now acc item existing hl hne] at h
      cases Except.ok.inj h
      exact hinv
    · cases hts : existing.slack_message_ts with
      | none =>
        rw [step_silent sha dryNotifier fr now acc item existing hl hne (Or.inl hts)] at h
        cases Except.ok.inj h
        exact NullAt_set_preserve _ _ _ existing _ hl rfl hinv
      | some ts =>
        cases ts with
        | nil =>
          rw [step_silent sha dryNotifier fr now acc item existing hl hne (Or.inr hts)] at h
          cases Except.ok.inj h
          exact NullAt_set_preserve _ _ _ existing _ hl rfl hinv
        | cons c cs =>
          have he : dryNotifier.edit (c :: cs) item (extractCurrentStatus item.description)
              = Except.ok (c :: cs) := rfl
          rw [step_edit sha dryNotifier fr now acc item existing c cs (c :: cs) hl hne hts he] at h
          cases Except.ok.inj h
          exact NullAt_set_preserve _ _ _ existing _ hl rfl hinv

lemma run_dry_null (sha : Str → Str) (fr : Bool) (now : Str)
    (feed : List Incident) (acc acc' : RunAcc) (k : Str)
    (h : runIncidents sha dryNotifier fr now acc feed = Except.ok acc')
    (hinv : NullAt acc.state k) : NullAt acc'.state k := by
  induction feed generalizing acc with
  | nil =>
    cases Except.ok.inj h
    exact hinv
  | cons item restf ih =>
    simp only [runIncidents] at h
    cases hstep : stepIncident sha dryNotifier fr now acc item with
    | error e =>
      rw [hstep] at h
      cases h
    | ok acc1 =>
      rw [hstep] at h
      exact ih acc1 h (step_dry_null sha fr now acc item acc1 k hstep hinv)

lemma step_suppressed_frozen (sha : Str → Str) (notif : Notifier) (fr : Bool)
    (now : Str) (acc : RunAcc) (item : Incident) (acc' : RunAcc) (k : Str)
    (h : stepIncident sha notif fr now acc item = Except.ok acc')
    (hs : SuppressedAt acc.state k) :
    SuppressedAt acc'.state k ∧
    ∀ c ∈ acc'.calls, c ∈ acc.calls ∨ Call.guid c ≠ k := by
  obtain ⟨e0, he0, hts0⟩ := hs
  cases hl : lookupEntry acc.state item.guid with
  | none =>
    have hkg : k ≠ item.guid := by
      intro hEq
      rw [hEq, hl] at he0
      cases he0
    cases hc : (fr && decide (0 < acc.newCount)) with
    | true =>
      rw [Bool.and_eq_true] at hc
      obtain ⟨hfr, hcnt⟩ := hc
      subst hfr
      rw [step_suppress sha notif now acc item hl (of_decide_eq_true hcnt)] at h
      cases Except.ok.inj h
      exact ⟨⟨e0, by rwa [lookup_set_ne _ _ _ _ hkg], hts0⟩,
        fun c hc' => Or.inl hc'⟩
    | false =>
      cases hsend : notif.send item (extractCurrentStatus item.description) with
      | error e =>
        rw [step_fresh_fail sha notif fr now acc item e hl hc hsend] at h
        cases h
      | ok ts =>
        rw [step_fresh sha notif fr now acc item ts hl hc hsend] at h
        cases Except.ok.inj h
        refine ⟨⟨e0, by rwa [lookup_set_ne _ _ _ _ hkg], hts0⟩, ?_⟩
        intro c hc'
        rcases List.mem_append.mp hc' with hc1 | hc2
        · exact Or.inl hc1
        · rw [List.mem_singleton] at hc2
          subst hc2
          exact Or.inr (fun hEq => hkg hEq.symm)
  | some existing =>
    by_cases hne : existing.description_hash = hashDescription sha item.description
    · rw [step_noop sha notif fr now acc item existing hl hne] at h
      cases Except.ok.inj h
      exact ⟨⟨e0, he0, hts0⟩, fun c hc' => Or.inl hc'⟩
    · cases hts : existing.slack_message_ts with
      | none =>
        rw [step_silent sha notif fr now acc item existing hl hne (Or.inl hts)] at h
        cases Except.ok.inj h
        constructor
        · by_cases hk : k = item.guid
          · subst hk
            rw [he0] at hl
            cases hl
            exact ⟨updatedEntry sha now item e0, lookup_set_self _ _ _, hts⟩
          · exact ⟨e0, by rwa [lookup_set_ne _ _ _ _ hk], hts0⟩
        · exact fun c hc' => Or.inl hc'
      | some ts =>
        cases ts with
        | nil =>
          rw [step_silent sha notif fr now acc item existing hl hne (Or.inr hts)] at h
          cases Except.ok.inj h
          constructor
          · by_cases hk : k = item.guid
            · subst hk
              rw [he0] at hl
              cases hl
              exact ⟨updatedEntry sha now item e0, lookup_set_self _ _ _, hts0⟩
            · exact ⟨e0, by rwa [lookup_set_ne _ _ _ _ hk], hts0⟩
          · exact fun c hc' => Or.inl hc'
        | cons c cs =>
          have hkg : k ≠ item.guid := by
            intro hEq
            rw [hEq] at he0
            rw [hl] at he0
            cases he0
            rw [hts0] at hts
            cases hts
          cases he : notif.edit (c :: cs) item (extractCurrentStatus item.description) with
          | error e =>
            rw [step_edit_fail sha notif fr now acc item existing c cs e hl hne hts he] at h
            cases h
          | ok newTs =>
            rw [step_edit sha notif fr now acc item existing c cs newTs hl hne hts he] at h
            cases Except.ok.inj h
            refine ⟨⟨e0, by rwa [lookup_set_ne _ _ _ _ hkg], hts0⟩, ?_⟩
            intro c' hc'
            rcases List.mem_append.mp hc' with hc1 | hc2
            · exact Or.inl hc1
            · rw [List.mem_singleton] at hc2
              subst hc2
              exact Or.inr (fun hEq => hkg hEq.symm)

lemma run_suppressed_frozen (sha : Str → Str) (notif : Notifier) (fr : Bool)
    (now : Str) (feed : List Incident) (acc acc' : RunAcc) (k : Str)
    (h : runIncidents sha notif fr now acc feed = Except.ok acc')
    (hs : SuppressedAt acc.state k)
    (hcalls : ∀ c ∈ acc.calls, Call.guid c ≠ k) :
    SuppressedAt acc'.state k ∧ ∀ c ∈ acc'.calls, Call.guid c ≠ k := by
  induction feed generalizing acc with
  | nil =>
    cases Except.ok.inj h
    exact ⟨hs, hcalls⟩
  | cons item restf ih =>
    simp only [runIncidents] at h
    cases hstep : stepIncident sha notif fr now acc item with
    | error e =>
      rw [hstep] at h
      cases h
    | ok acc1 =>
      rw [hstep] at h
      obtain ⟨hs1, hc1⟩ := step_suppressed_frozen sha notif fr now acc item acc1 k hstep hs
      refine ih acc1 h hs1 ?_
      intro c hc'
      rcases hc1 c hc' with hin | hne
      · exact hcalls c hin
      · exact hne

/-- C10: when the chat adapter is unconfigured, `postNewIncident` returns
null (`dryNotifier.send` always returns ok none), so every incident first
seen in such a run — including the newest one that the first-run rule
posts — is stored with a null outbound message ts; and since no
reconciliation step ever changes a stored null ts to non-null and entries
are never removed, such incidents stay suppressed (kept with a null ts and
receiving no notifier call) in all later runs under any notifier,
including a fully configured one. -/
theorem dry_run_permanent_suppression :
    (∀ (i : Incident) (s : Status), dryNotifier.send i s = Except.ok none) ∧
    (∀ (sha : Str → Str) (feed : List Incident) (state0 : StateStore)
        (now : Str) (acc' : RunAcc) (k : Str) (e' : Entry),
      processIncidents sha dryNotifier feed state0 now = Except.ok acc' →
      lookupEntry state0 k = none →
      lookupEntry acc'.state k = some e' →
      e'.slack_message_ts = none) ∧
    (∀ (sha : Str → Str) (notif : Notifier) (feed : List Incident)
        (state0 : StateStore) (now : Str) (acc' : RunAcc) (k : Str) (e : Entry),
      lookupEntry state0 k = some e →
      e.slack_message_ts = none →
      processIncidents sha notif feed state0 now = Except.ok acc' →
      (∃ e', lookupEntry acc'.state k = some e' ∧ e'.slack_message_ts = none) ∧
      ∀ c ∈ acc'.calls, Call.guid c ≠ k) := by
  refine ⟨fun _ _ => rfl, ?_, ?_⟩
  · intro sha feed state0 now acc' k e' hrun hk0 hk'
    have hinv : NullAt acc'.state k :=
      run_dry_null sha state0.isEmpty now feed (initAcc state0) acc' k hrun (Or.inl hk0)
    rcases hinv with h0 | ⟨e0, he0, hts0⟩
    · rw [h0] at hk'
      cases hk'
    · rw [he0] at hk'
      cases hk'
      exact hts0
  · intro sha notif feed state0 now acc' k e hk0 hts0 hrun
    exact run_suppressed_frozen sha notif state0.isEmpty now feed (initAcc state0) acc' k
      hrun ⟨e, hk0, hts0⟩ (fun c hc => absurd hc (List.not_mem_nil c))

theorem dry_run_permanent_suppression_witness :
    lookupEntry accY.state (str "Y") = some entryY ∧
    entryY.slack_message_ts = none ∧
    processIncidents sampleSha notifT2 [itemY] accY.state (str "now")
      = Except.ok
          { state := [(str "Y", updatedEntry sampleSha (str "now") itemY entryY)]
            newCount := 0
            updateCount := 1
            calls := [] } ∧
    ((∃ e', lookupEntry [(str "Y", updatedEntry sampleSha (str "now") itemY entryY)] (str "Y")
        = some e' ∧ e'.slack_message_ts = none) ∧
      ∀ c ∈ ([] : List Call), Call.guid c ≠ str "Y") :=
  ⟨rfl, rfl, rfl,
    dry_run_permanent_suppression.2.2 sampleSha notifT2 [itemY] accY.state (str "now")
      { state := [(str "Y", updatedEntry sampleSha (str "now") itemY entryY)]
        newCount := 0
        updateCount := 1
        calls := [] } (str "Y") entryY rfl rfl rfl⟩

end ClaudeStatus
